import Mathlib

/-!
Shallow embedding of the Peridynamic Porosity Simulator (src/main.cpp).

The program reads parameters (Lx, Ly, dx, phi, m), validates them, builds a
regular 2D lattice of particles, enumerates bonds (pairs of particles within
the horizon delta = m*dx, compared in squared form), stochastically breaks
bonds with probability d_phi = phi using per-bond uniform draws in [0,1),
derives a per-point damage field, and serializes everything to a VTK file.

Real numbers of the C++ code (double) are modelled as exact rationals; the
random source (mt19937 + uniform_real_distribution) is modelled as an
explicit stream of draws, one rational per bond examined, consumed in
pair-enumeration order.
-/

/-- A 2D particle position, mirroring the C++ struct Particle with fields
x and y (main.cpp:17-20). -/
structure Particle where
  x : ℚ
  y : ℚ
deriving Repr, DecidableEq

/-- Squared distance between two particles: mirrors `dist2` (main.cpp:23-27). -/
def dist2 (a b : Particle) : ℚ :=
  (a.x - b.x) * (a.x - b.x) + (a.y - b.y) * (a.y - b.y)

/-- Number of lattice columns: `Nx = (int)floor(Lx/dx) + 1` (main.cpp:129). -/
def latticeNx (Lx dx : ℚ) : ℕ :=
  (⌊Lx / dx⌋).toNat + 1

/-- Number of lattice rows: `Ny = (int)floor(Ly/dx) + 1` (main.cpp:130). -/
def latticeNy (Ly dx : ℚ) : ℕ :=
  (⌊Ly / dx⌋).toNat + 1

/-- The lattice fill loop (main.cpp:140-146): for each row j and column i,
particle id `j*Nx+i` is placed at `(i*dx, j*dx)`.  The double loop visits the
ids `0, 1, 2, ...` in increasing order, which is exactly this flatMap. -/
def buildLattice (Lx Ly dx : ℚ) : List Particle :=
  (List.range (latticeNy Ly dx)).flatMap (fun (j : ℕ) =>
    (List.range (latticeNx Lx dx)).map (fun (i : ℕ) =>
      ⟨(i : ℚ) * dx, (j : ℚ) * dx⟩))

/-- The pair enumeration order of both pairwise passes (main.cpp:160-161 and
183-184): outer index i from 0 to N-1, inner index j from i+1 to N-1. -/
def bondPairs (N : ℕ) : List (ℕ × ℕ) :=
  (List.range N).flatMap (fun i =>
    (List.range' (i + 1) (N - (i + 1))).map (fun j => (i, j)))

/-- Particle lookup: the C++ code indexes `particles[i]` with i in range; out
of range reads are given a default so the function is total. -/
def getP (ps : List Particle) (i : ℕ) : Particle :=
  ps.getD i ⟨0, 0⟩

/-- The bond test of both passes (main.cpp:162, 185):
`dist2(particles[i], particles[j]) <= delta2`, with equality included. -/
def isBond (ps : List Particle) (delta2 : ℚ) (pr : ℕ × ℕ) : Bool :=
  decide (dist2 (getP ps pr.1) (getP ps pr.2) ≤ delta2)

/-- Increment of one cell of a counter array (`v[k]++`). -/
def bump (f : ℕ → ℕ) (k : ℕ) : ℕ → ℕ :=
  fun t => if t = k then f t + 1 else f t

/-- One step of the first pairwise pass (main.cpp:160-168): on a bond,
`N_total[i]++; N_total[j]++`. -/
def tallyStep (ps : List Particle) (delta2 : ℚ) (acc : ℕ → ℕ) (pr : ℕ × ℕ) :
    ℕ → ℕ :=
  if isBond ps delta2 pr then bump (bump acc pr.1) pr.2 else acc

/-- `N_total` after the first pairwise pass: per-particle total bond counts. -/
def N_total (ps : List Particle) (delta2 : ℚ) : ℕ → ℕ :=
  (bondPairs ps.length).foldl (tallyStep ps delta2) (fun _ => 0)

/-- State of the pre-damage pass (main.cpp:180-198): the global counters
`totalBonds`, `brokenBonds` and the per-particle array `N_broken`.  The global
`totalBonds` doubles as the index of the next random draw, since exactly one
draw is made per bond examined, in enumeration order. -/
structure DamState where
  totalBonds : ℕ
  brokenBonds : ℕ
  N_broken : ℕ → ℕ

/-- One step of the pre-damage pass (main.cpp:183-198): on a bond,
`totalBonds++`, draw r, and if `r < d_phi` break the bond:
`N_broken[i]++; N_broken[j]++; brokenBonds++`. -/
def damStep (ps : List Particle) (delta2 dphi : ℚ) (draws : ℕ → ℚ)
    (s : DamState) (pr : ℕ × ℕ) : DamState :=
  if isBond ps delta2 pr then
    if draws s.totalBonds < dphi then
      ⟨s.totalBonds + 1, s.brokenBonds + 1, bump (bump s.N_broken pr.1) pr.2⟩
    else
      ⟨s.totalBonds + 1, s.brokenBonds, s.N_broken⟩
  else s

/-- The whole pre-damage pass over all pairs. -/
def runDamage (ps : List Particle) (delta2 dphi : ℚ) (draws : ℕ → ℚ) :
    DamState :=
  (bondPairs ps.length).foldl (damStep ps delta2 dphi draws) ⟨0, 0, fun _ => 0⟩

/-- Local damage (main.cpp:212-221): `d(i) = N_broken[i] / N_total[i]` when
`N_total[i] > 0`, else 0. -/
def damageOf (tot brok : ℕ → ℕ) (i : ℕ) : ℚ :=
  if 0 < tot i then (brok i : ℚ) / (tot i : ℚ) else 0

/-- C++ `static_cast<int>` on a real value: truncation toward zero. -/
def cppTrunc (q : ℚ) : ℤ :=
  if 0 ≤ q then ⌊q⌋ else ⌈q⌉

/-- Output filename (main.cpp:227-228):
`"porosity_Lx" + to_string((int)Lx) + "_phi" + to_string((int)(phi*100)) + ".vtk"`. -/
def vtkFilename (Lx phi : ℚ) : String :=
  "porosity_Lx" ++ toString (cppTrunc Lx) ++ "_phi" ++
    toString (cppTrunc (phi * 100)) ++ ".vtk"

/-- Fixed-point rendering with 6 decimal digits, modelling
`std::fixed << std::setprecision(6)` for the nonnegative values the program
prints (positions and damage values are all nonnegative). -/
def fmt6 (q : ℚ) : String :=
  let n : ℤ := ⌊q * 1000000 + 1 / 2⌋
  let ip : ℤ := n / 1000000
  let fp : ℕ := (n % 1000000).toNat
  let s : String := toString fp
  toString ip ++ "." ++ String.mk (List.replicate (6 - s.length) '0') ++ s

/-- One line of the POINTS block (main.cpp:243-247): `x y 0.0`. -/
def pointLine (p : Particle) : String :=
  fmt6 p.x ++ " " ++ fmt6 p.y ++ " " ++ fmt6 0

/-- One line of the VERTICES block (main.cpp:251-253): `1 <index>`. -/
def vertexLine (i : ℕ) : String :=
  "1 " ++ toString i

/-- The VTK file as a list of lines, in the exact order the code writes them
(main.cpp:235-261). -/
def vtkLines (ps : List Particle) (dmg : List ℚ) : List String :=
  ["# vtk DataFile Version 3.0",
   "Peridynamic porous pre-damage",
   "ASCII",
   "DATASET POLYDATA",
   "POINTS " ++ toString ps.length ++ " float"]
  ++ ps.map pointLine
  ++ ["VERTICES " ++ toString ps.length ++ " " ++ toString (2 * ps.length)]
  ++ (List.range ps.length).map vertexLine
  ++ ["POINT_DATA " ++ toString ps.length,
      "SCALARS damage float 1",
      "LOOKUP_TABLE default"]
  ++ dmg.map fmt6

/-- The simulation parameters read from the user (main.cpp:101-116). -/
structure SimInput where
  Lx : ℚ
  Ly : ℚ
  dx : ℚ
  phi : ℚ
  m : ℚ

/-- Everything a completed run produces. -/
structure SimOutput where
  lattice : List Particle
  totalPerPoint : ℕ → ℕ
  brokenPerPoint : ℕ → ℕ
  totalBonds : ℕ
  brokenBonds : ℕ
  damage : List ℚ
  vtk : List String
  filename : String

/-- The whole pipeline (main.cpp:97-264): validate, build lattice, count
bonds, apply pre-damage with the given draw stream, compute damage, render
the VTK lines.  Returns `none` exactly when validation (main.cpp:118-121)
rejects the parameters, before any lattice is built. -/
def runSimulation (inp : SimInput) (draws : ℕ → ℚ) : Option SimOutput :=
  if inp.dx ≤ 0 ∨ inp.Lx ≤ 0 ∨ inp.Ly ≤ 0 ∨ inp.phi < 0 ∨ 1 < inp.phi ∨
      inp.m ≤ 0 then
    none
  else
    let dphi := inp.phi
    let ps := buildLattice inp.Lx inp.Ly inp.dx
    let delta := inp.m * inp.dx
    let delta2 := delta * delta
    let tot := N_total ps delta2
    let dam := runDamage ps delta2 dphi draws
    let dmg := (List.range ps.length).map (damageOf tot dam.N_broken)
    some ⟨ps, tot, dam.N_broken, dam.totalBonds, dam.brokenBonds, dmg,
      vtkLines ps dmg, vtkFilename inp.Lx inp.phi⟩

/-! ### Helper lemmas on the lattice layout -/

/-- Length of a row-major double loop over `Ny` rows of `Nx` entries. -/
lemma length_flatMap_rows {α : Type} (f : ℕ → ℕ → α) (Nx Ny : ℕ) :
    ((List.range Ny).flatMap (fun j => (List.range Nx).map (f j))).length =
      Ny * Nx := by
  simp [List.length_flatMap, Function.comp_def]

/-- Element `j * Nx + i` of a row-major double loop is `f j i`. -/
lemma getElem?_flatMap_rows {α : Type} (f : ℕ → ℕ → α) (Nx Ny i j : ℕ)
    (hi : i < Nx) (hj : j < Ny) :
    ((List.range Ny).flatMap (fun j => (List.range Nx).map (f j)))[j * Nx + i]? =
      some (f j i) := by
  induction Ny with
  | zero => omega
  | succ Ny ih =>
    rw [List.range_succ, List.flatMap_append]
    rcases Nat.lt_or_ge j Ny with hj' | hj'
    · rw [List.getElem?_append, if_pos]
      · exact ih hj'
      · rw [length_flatMap_rows]
        calc j * Nx + i < j * Nx + Nx := by omega
        _ ≤ Ny * Nx := by
              have : j + 1 ≤ Ny := hj'
              calc j * Nx + Nx = (j + 1) * Nx := by ring
              _ ≤ Ny * Nx := Nat.mul_le_mul_right Nx this
    · have hje : j = Ny := by omega
      subst hje
      rw [List.getElem?_append_right]
      · rw [length_flatMap_rows]
        have h1 : j * Nx + i - j * Nx = i := by omega
        rw [h1]
        simp [List.flatMap_singleton, List.getElem?_map, List.getElem?_range hi]
      · rw [length_flatMap_rows]; omega

/-! ### C1: lattice builder -/

/-- C1: for strictly positive Lx, Ly, dx the lattice has Nx = floor(Lx/dx)+1
columns and Ny = floor(Ly/dx)+1 rows, each at least 1, N = Nx*Ny particles,
and the particle with row-major index j*Nx+i sits exactly at (i*dx, j*dx). -/
theorem latticeBuilder_correct (Lx Ly dx : ℚ)
    (hLx : 0 < Lx) (hLy : 0 < Ly) (hdx : 0 < dx) :
    1 ≤ latticeNx Lx dx ∧ 1 ≤ latticeNy Ly dx ∧
    (buildLattice Lx Ly dx).length = latticeNx Lx dx * latticeNy Ly dx ∧
    ∀ i j : ℕ, i < latticeNx Lx dx → j < latticeNy Ly dx →
      (buildLattice Lx Ly dx)[j * latticeNx Lx dx + i]? =
        some ⟨(i : ℚ) * dx, (j : ℚ) * dx⟩ := by
  refine ⟨Nat.le_add_left 1 _, Nat.le_add_left 1 _, ?_, ?_⟩
  · rw [buildLattice, length_flatMap_rows]
    exact Nat.mul_comm _ _
  · intro i j hi hj
    exact getElem?_flatMap_rows
      (fun (j i : ℕ) => (⟨(i : ℚ) * dx, (j : ℚ) * dx⟩ : Particle))
      (latticeNx Lx dx) (latticeNy Ly dx) i j hi hj

/-- Witness for C1 at Lx = Ly = dx = 1: a 2-by-2 lattice of 4 particles whose
last particle (row 1, column 1) sits at (1, 1). -/
theorem latticeBuilder_correct_witness :
    1 ≤ latticeNx 1 1 ∧
    (buildLattice 1 1 1).length = latticeNx 1 1 * latticeNy 1 1 ∧
    (buildLattice 1 1 1)[1 * latticeNx 1 1 + 1]? =
      some ⟨((1 : ℕ) : ℚ) * 1, ((1 : ℕ) : ℚ) * 1⟩ := by
  obtain ⟨h1, _, h3, h4⟩ :=
    latticeBuilder_correct 1 1 1 (by decide) (by decide) (by decide)
  exact ⟨h1, h3, h4 1 1 (by simp [latticeNx]) (by simp [latticeNy])⟩

/-! ### Helper lemmas on the pair enumeration -/

/-- The double loop visits exactly the pairs i < j < N. -/
lemma mem_bondPairs {N i j : ℕ} : (i, j) ∈ bondPairs N ↔ i < j ∧ j < N := by
  simp only [bondPairs, List.mem_flatMap, List.mem_map, List.mem_range,
    List.mem_range']
  constructor
  · rintro ⟨a, ha, b, ⟨k, hk, hbk⟩, hab⟩
    obtain ⟨rfl, rfl⟩ := Prod.mk.injEq .. ▸ hab
    omega
  · rintro ⟨hij, hjN⟩
    exact ⟨i, by omega, j, ⟨j - (i + 1), by omega, by omega⟩, rfl⟩

/-- Pair version of `mem_bondPairs`. -/
lemma bondPairs_lt {N : ℕ} {pr : ℕ × ℕ} (h : pr ∈ bondPairs N) :
    pr.1 < pr.2 ∧ pr.2 < N := by
  obtain ⟨i, j⟩ := pr
  exact mem_bondPairs.mp h

/-- The double loop visits no pair twice. -/
lemma nodup_bondPairs (N : ℕ) : (bondPairs N).Nodup := by
  rw [bondPairs, List.nodup_flatMap]
  refine ⟨fun a _ => ?_, ?_⟩
  · exact (List.nodup_range' _ _).map (fun x y hxy => by
      simpa using congrArg Prod.snd hxy)
  · have hpw : (List.range N).Pairwise (· < ·) := List.pairwise_lt_range N
    refine hpw.imp ?_
    intro a b hab x hxa hxb
    simp only [List.mem_map] at hxa hxb
    obtain ⟨ja, _, rfl⟩ := hxa
    obtain ⟨jb, _, hba⟩ := hxb
    have := congrArg Prod.fst hba
    simp at this
    omega

/-- Evaluating `bump` pointwise. -/
lemma bump_apply (f : ℕ → ℕ) (k t : ℕ) :
    bump f k t = f t + if t = k then 1 else 0 := by
  by_cases h : t = k <;> simp [bump, h]

/-- The first pairwise pass counts, at each point t, exactly the bonds among
the processed pairs that have t as an endpoint. -/
lemma foldl_tallyStep_count (ps : List Particle) (delta2 : ℚ) :
    ∀ (L : List (ℕ × ℕ)) (acc : ℕ → ℕ) (t : ℕ),
      (∀ pr ∈ L, pr.1 ≠ pr.2) →
      L.foldl (tallyStep ps delta2) acc t =
        acc t + (L.countP
          (fun pr => isBond ps delta2 pr &&
            (decide (t = pr.1) || decide (t = pr.2)))) := by
  intro L
  induction L with
  | nil => intro acc t _; simp
  | cons pr L ih =>
    intro acc t hne
    have hpr : pr.1 ≠ pr.2 := hne pr (List.mem_cons_self ..)
    have hL : ∀ q ∈ L, q.1 ≠ q.2 := fun q hq => hne q (List.mem_cons_of_mem _ hq)
    rw [List.foldl_cons, List.countP_cons, ih _ t hL]
    unfold tallyStep
    by_cases hb : isBond ps delta2 pr
    · rw [if_pos hb, bump_apply, bump_apply]
      by_cases h1 : t = pr.1 <;> by_cases h2 : t = pr.2
      · exact absurd (h1.symm.trans h2) hpr
      all_goals simp [hb, h1, h2, hpr, Ne.symm hpr] <;> omega
    · rw [if_neg hb]
      simp [hb]

/-! ### C2: bond enumerator -/

/-- C2: the bond enumerator considers each pair i < j < N exactly once and no
self-pair; a pair is a bond iff the squared distance is at most (m*dx)^2,
boundary included; and N_total counts, at each point, exactly the bonds
incident to it (one increment per endpoint per bond). -/
theorem bondEnumerator_correct (ps : List Particle) (m dx : ℚ) :
    (∀ i j : ℕ, (i, j) ∈ bondPairs ps.length ↔ i < j ∧ j < ps.length) ∧
    (bondPairs ps.length).Nodup ∧
    (∀ pr : ℕ × ℕ, isBond ps ((m * dx) * (m * dx)) pr = true ↔
      dist2 (getP ps pr.1) (getP ps pr.2) ≤ (m * dx) ^ 2) ∧
    (∀ t : ℕ, N_total ps ((m * dx) * (m * dx)) t =
      ((bondPairs ps.length).countP
        (fun pr => isBond ps ((m * dx) * (m * dx)) pr &&
          (decide (t = pr.1) || decide (t = pr.2))))) := by
  refine ⟨fun i j => mem_bondPairs, nodup_bondPairs _, fun pr => ?_, fun t => ?_⟩
  · rw [isBond, decide_eq_true_iff, sq]
  · rw [N_total, foldl_tallyStep_count ps ((m * dx) * (m * dx))
      (bondPairs ps.length) (fun _ => 0) t
      (fun q hq => Nat.ne_of_lt (bondPairs_lt hq).1)]
    simp

/-! ### Helper lemmas on the counter sums and the pre-damage pass -/

/-- Incrementing one cell below N raises the sum over range N by one. -/
lemma sum_bump (f : ℕ → ℕ) (k N : ℕ) (hk : k < N) :
    ∑ t ∈ Finset.range N, bump f k t = (∑ t ∈ Finset.range N, f t) + 1 := by
  simp only [bump_apply]
  rw [Finset.sum_add_distrib, Finset.sum_ite_eq' (Finset.range N) k fun _ => 1]
  simp [Finset.mem_range.mpr hk]

/-- Summing the per-point totals over all points counts every processed bond
twice (once per endpoint). -/
lemma foldl_tallyStep_sum (ps : List Particle) (delta2 : ℚ) (N : ℕ) :
    ∀ (L : List (ℕ × ℕ)) (acc : ℕ → ℕ),
      (∀ pr ∈ L, pr.1 < pr.2 ∧ pr.2 < N) →
      ∑ t ∈ Finset.range N, (L.foldl (tallyStep ps delta2) acc) t =
        (∑ t ∈ Finset.range N, acc t) + 2 * L.countP (isBond ps delta2) := by
  intro L
  induction L with
  | nil => intro acc _; simp
  | cons pr L ih =>
    intro acc hpr
    obtain ⟨h1, h2⟩ := hpr pr (List.mem_cons_self ..)
    have hL : ∀ q ∈ L, q.1 < q.2 ∧ q.2 < N :=
      fun q hq => hpr q (List.mem_cons_of_mem _ hq)
    rw [List.foldl_cons, List.countP_cons, ih _ hL]
    unfold tallyStep
    by_cases hb : isBond ps delta2 pr
    · rw [if_pos hb, sum_bump _ _ _ h2, sum_bump _ _ _ (by omega)]
      simp [hb]
      ring
    · rw [if_neg hb]
      simp [hb]

/-- The global totalBonds counter of the pre-damage pass counts exactly the
bonds among the processed pairs, independently of the draws. -/
lemma foldl_damStep_total (ps : List Particle) (delta2 dphi : ℚ)
    (draws : ℕ → ℚ) :
    ∀ (L : List (ℕ × ℕ)) (s : DamState),
      (L.foldl (damStep ps delta2 dphi draws) s).totalBonds =
        s.totalBonds + L.countP (isBond ps delta2) := by
  intro L
  induction L with
  | nil => intro s; simp
  | cons pr L ih =>
    intro s
    rw [List.foldl_cons, List.countP_cons, ih]
    unfold damStep
    by_cases hb : isBond ps delta2 pr
    · by_cases hr : draws s.totalBonds < dphi <;> simp [hb, hr] <;> omega
    · simp [hb]

/-- The pre-damage pass preserves the relation between the global broken
counter and the sum of the per-point broken counters. -/
lemma foldl_damStep_brokenSum (ps : List Particle) (delta2 dphi : ℚ)
    (draws : ℕ → ℚ) (N : ℕ) :
    ∀ (L : List (ℕ × ℕ)) (s : DamState),
      (∀ pr ∈ L, pr.1 < pr.2 ∧ pr.2 < N) →
      2 * s.brokenBonds = (∑ t ∈ Finset.range N, s.N_broken t) →
      2 * (L.foldl (damStep ps delta2 dphi draws) s).brokenBonds =
        ∑ t ∈ Finset.range N,
          (L.foldl (damStep ps delta2 dphi draws) s).N_broken t := by
  intro L
  induction L with
  | nil => intro s _ hs; simpa using hs
  | cons pr L ih =>
    intro s hpr hs
    obtain ⟨h1, h2⟩ := hpr pr (List.mem_cons_self ..)
    have hL : ∀ q ∈ L, q.1 < q.2 ∧ q.2 < N :=
      fun q hq => hpr q (List.mem_cons_of_mem _ hq)
    rw [List.foldl_cons]
    refine ih _ hL ?_
    unfold damStep
    by_cases hb : isBond ps delta2 pr
    · by_cases hr : draws s.totalBonds < dphi
      · simp only [hb, if_pos, hr, if_true]
        rw [sum_bump _ _ _ h2, sum_bump _ _ _ (by omega)]
        omega
      · simpa [hb, hr] using hs
    · simpa [hb] using hs

/-- Pointwise monotonicity of `bump`. -/
lemma bump_le_bump {f g : ℕ → ℕ} (k : ℕ) (h : ∀ t, f t ≤ g t) (t : ℕ) :
    bump f k t ≤ bump g k t := by
  simp only [bump_apply]
  exact Nat.add_le_add_right (h t) _

/-- `bump` never decreases a cell. -/
lemma le_bump (f : ℕ → ℕ) (k t : ℕ) : f t ≤ bump f k t := by
  simp only [bump_apply]; omega

/-- Running the two pairwise passes over the same pair list keeps every
per-point broken count below the corresponding total count. -/
lemma foldl_broken_le_total (ps : List Particle) (delta2 dphi : ℚ)
    (draws : ℕ → ℚ) :
    ∀ (L : List (ℕ × ℕ)) (acc : ℕ → ℕ) (s : DamState),
      (∀ t, s.N_broken t ≤ acc t) →
      ∀ t, (L.foldl (damStep ps delta2 dphi draws) s).N_broken t ≤
        (L.foldl (tallyStep ps delta2) acc) t := by
  intro L
  induction L with
  | nil => intro acc s h t; exact h t
  | cons pr L ih =>
    intro acc s h t
    rw [List.foldl_cons, List.foldl_cons]
    refine ih _ _ ?_ t
    intro u
    unfold damStep tallyStep
    by_cases hb : isBond ps delta2 pr
    · by_cases hr : draws s.totalBonds < dphi
      · simp only [hb, if_true, hr]
        exact bump_le_bump _ (bump_le_bump _ h) u
      · simp only [hb, if_true, hr, if_false]
        exact le_trans (h u) (le_trans (le_bump _ _ _) (le_bump _ _ _))
    · simp only [hb, if_false]
      exact h u

/-- The pre-damage pass breaks no bond when the damage probability is 0 and
all draws are nonnegative. -/
lemma foldl_damStep_phi0 (ps : List Particle) (delta2 : ℚ) (draws : ℕ → ℚ)
    (h0 : ∀ k, 0 ≤ draws k) :
    ∀ (L : List (ℕ × ℕ)) (s : DamState),
      (L.foldl (damStep ps delta2 0 draws) s).brokenBonds = s.brokenBonds := by
  intro L
  induction L with
  | nil => intro s; rfl
  | cons pr L ih =>
    intro s
    rw [List.foldl_cons, ih]
    unfold damStep
    by_cases hb : isBond ps delta2 pr
    · have hr : ¬ draws s.totalBonds < 0 := not_lt.mpr (h0 _)
      simp [hb, hr]
    · simp [hb]

/-- The pre-damage pass breaks every bond when the damage probability is 1
and all draws are below 1. -/
lemma foldl_damStep_phi1 (ps : List Particle) (delta2 : ℚ) (draws : ℕ → ℚ)
    (h1 : ∀ k, draws k < 1) :
    ∀ (L : List (ℕ × ℕ)) (s : DamState),
      s.brokenBonds = s.totalBonds →
      (L.foldl (damStep ps delta2 1 draws) s).brokenBonds =
        (L.foldl (damStep ps delta2 1 draws) s).totalBonds := by
  intro L
  induction L with
  | nil => intro s hs; exact hs
  | cons pr L ih =>
    intro s hs
    rw [List.foldl_cons]
    refine ih _ ?_
    unfold damStep
    by_cases hb : isBond ps delta2 pr
    · simp [hb, h1 s.totalBonds, hs]
    · simp [hb, hs]

/-- Shared corollary: after both passes the per-point broken count never
exceeds the per-point total count. -/
lemma N_broken_le_N_total (ps : List Particle) (delta2 dphi : ℚ)
    (draws : ℕ → ℚ) (t : ℕ) :
    (runDamage ps delta2 dphi draws).N_broken t ≤ N_total ps delta2 t := by
  rw [runDamage, N_total]
  exact foldl_broken_le_total ps delta2 dphi draws (bondPairs ps.length)
    (fun _ => 0) ⟨0, 0, fun _ => 0⟩ (fun _ => le_refl 0) t

/-! ### C5: total-bond cross-check -/

/-- C5: twice the global bond count of the pre-damage pass equals the sum of
the per-point total bond counts of the first pass. -/
theorem totalBondCount_cross_check (ps : List Particle) (delta2 dphi : ℚ)
    (draws : ℕ → ℚ) :
    2 * (runDamage ps delta2 dphi draws).totalBonds =
      ∑ t ∈ Finset.range ps.length, N_total ps delta2 t := by
  have h1 := foldl_damStep_total ps delta2 dphi draws (bondPairs ps.length)
    ⟨0, 0, fun _ => 0⟩
  have h2 := foldl_tallyStep_sum ps delta2 ps.length (bondPairs ps.length)
    (fun _ => 0) (fun pr hpr => bondPairs_lt hpr)
  rw [runDamage, h1]
  simp only [N_total]
  rw [h2]
  simp

/-! ### C10: broken-bond cross-check -/

/-- C10: twice the global broken-bond count equals the sum of the per-point
broken counts. -/
theorem brokenBondCount_cross_check (ps : List Particle) (delta2 dphi : ℚ)
    (draws : ℕ → ℚ) :
    2 * (runDamage ps delta2 dphi draws).brokenBonds =
      ∑ t ∈ Finset.range ps.length,
        (runDamage ps delta2 dphi draws).N_broken t := by
  rw [runDamage]
  exact foldl_damStep_brokenSum ps delta2 dphi draws ps.length
    (bondPairs ps.length) ⟨0, 0, fun _ => 0⟩
    (fun pr hpr => bondPairs_lt hpr) (by simp)

/-! ### C6: per-point invariant and once-only bond decisions -/

/-- C6: after the two passes, every per-point broken count is bounded by the
per-point total count, and each unordered pair i < j < N is enumerated (hence
decided) exactly once. -/
theorem brokenBonds_le_totalBonds (ps : List Particle) (delta2 dphi : ℚ)
    (draws : ℕ → ℚ) :
    (∀ t : ℕ, (runDamage ps delta2 dphi draws).N_broken t ≤
      N_total ps delta2 t) ∧
    (∀ i j : ℕ, i < j → j < ps.length →
      (bondPairs ps.length).countP (fun pr => decide (pr = (i, j))) = 1) := by
  constructor
  · exact N_broken_le_N_total ps delta2 dphi draws
  · intro i j hij hjN
    have h := List.count_eq_one_of_mem (nodup_bondPairs ps.length)
      (mem_bondPairs.mpr ⟨hij, hjN⟩)
    simpa [List.count, instBEqOfDecidableEq] using h

/-- Witness for C6 on the 2-by-2 lattice with horizon 1.5 and alternating
draws. -/
theorem brokenBonds_le_totalBonds_witness :
    (runDamage (buildLattice 1 1 1) (9/4) (1/2)
        (fun k => if k % 2 = 0 then 1/4 else 3/4)).N_broken 0 ≤
      N_total (buildLattice 1 1 1) (9/4) 0 ∧
    (bondPairs (buildLattice 1 1 1).length).countP
      (fun pr => decide (pr = (0, 1))) = 1 := by
  obtain ⟨h1, h2⟩ := brokenBonds_le_totalBonds (buildLattice 1 1 1) (9/4) (1/2)
    (fun k => if k % 2 = 0 then 1/4 else 3/4)
  exact ⟨h1 0, h2 0 1 (by decide)
    (by rw [buildLattice, length_flatMap_rows]
        simp [latticeNx, latticeNy])⟩

/-! ### C7: porosity extremes -/

/-- C7: with draws in [0,1), probability 0 breaks no bond and probability 1
breaks every bond. -/
theorem phi_extremes (ps : List Particle) (delta2 : ℚ) (draws : ℕ → ℚ)
    (h0 : ∀ k, 0 ≤ draws k) (h1 : ∀ k, draws k < 1) :
    (runDamage ps delta2 0 draws).brokenBonds = 0 ∧
    (runDamage ps delta2 1 draws).brokenBonds =
      (runDamage ps delta2 1 draws).totalBonds := by
  constructor
  · rw [runDamage]
    exact foldl_damStep_phi0 ps delta2 draws h0 (bondPairs ps.length)
      ⟨0, 0, fun _ => 0⟩
  · rw [runDamage]
    exact foldl_damStep_phi1 ps delta2 draws h1 (bondPairs ps.length)
      ⟨0, 0, fun _ => 0⟩ rfl

/-- Witness for C7 on the 2-by-2 lattice with the constant zero draw
stream. -/
theorem phi_extremes_witness :
    (runDamage (buildLattice 1 1 1) (9/4) 0 (fun _ => 0)).brokenBonds = 0 ∧
    (runDamage (buildLattice 1 1 1) (9/4) 1 (fun _ => 0)).brokenBonds =
      (runDamage (buildLattice 1 1 1) (9/4) 1 (fun _ => 0)).totalBonds :=
  phi_extremes (buildLattice 1 1 1) (9/4) (fun _ => 0)
    (fun _ => le_refl 0) (fun _ => show (0 : ℚ) < 1 by decide)

/-! ### C3: damage field -/

/-- C3: the damage field is the broken/total ratio where the total count is
positive and 0 where it vanishes, and it always lies in [0, 1]. -/
theorem damageField_correct (ps : List Particle) (delta2 dphi : ℚ)
    (draws : ℕ → ℚ) (i : ℕ) :
    damageOf (N_total ps delta2) (runDamage ps delta2 dphi draws).N_broken i =
      (if 0 < N_total ps delta2 i then
        ((runDamage ps delta2 dphi draws).N_broken i : ℚ) /
          (N_total ps delta2 i : ℚ)
      else 0) ∧
    0 ≤ damageOf (N_total ps delta2)
      (runDamage ps delta2 dphi draws).N_broken i ∧
    damageOf (N_total ps delta2)
      (runDamage ps delta2 dphi draws).N_broken i ≤ 1 := by
  refine ⟨rfl, ?_, ?_⟩
  · rw [damageOf]
    split_ifs with h
    · positivity
    · exact le_refl 0
  · rw [damageOf]
    split_ifs with h
    · rw [div_le_one (by exact_mod_cast h)]
      exact_mod_cast N_broken_le_N_total ps delta2 dphi draws i
    · exact zero_le_one

/-! ### C4: parameter validation -/

/-- C4: the run yields no output exactly when one of the validated parameter
conditions fails; otherwise it proceeds.  The check happens before the
lattice is built: the rejecting branch constructs nothing. -/
theorem invalidParameter_iff (inp : SimInput) (draws : ℕ → ℚ) :
    runSimulation inp draws = none ↔
      inp.Lx ≤ 0 ∨ inp.Ly ≤ 0 ∨ inp.dx ≤ 0 ∨ inp.phi < 0 ∨ 1 < inp.phi ∨
        inp.m ≤ 0 := by
  rw [runSimulation]
  split_ifs with h
  · exact iff_of_true rfl (by tauto)
  · exact iff_of_false (by simp) (by tauto)

/-! ### C9: determinism -/

/-- C9: the whole pipeline is a pure function of the parameters and the draw
stream: two runs with equal parameters and pointwise-equal draw streams
produce equal outputs (lattice, counters, damage field, file). -/
theorem pipeline_deterministic (inp1 inp2 : SimInput)
    (draws1 draws2 : ℕ → ℚ) (h : inp1 = inp2) (hd : ∀ k, draws1 k = draws2 k) :
    runSimulation inp1 draws1 = runSimulation inp2 draws2 := by
  subst h
  rw [show draws1 = draws2 from funext hd]

/-- Witness for C9: the run at Lx = Ly = dx = 1, phi = 0, m = 1 with the
zero draw stream equals itself. -/
theorem pipeline_deterministic_witness :
    runSimulation ⟨1, 1, 1, 0, 1⟩ (fun _ => 0) =
      runSimulation ⟨1, 1, 1, 0, 1⟩ (fun _ => 0) :=
  pipeline_deterministic ⟨1, 1, 1, 0, 1⟩ ⟨1, 1, 1, 0, 1⟩
    (fun _ => 0) (fun _ => 0) rfl (fun _ => rfl)

/-! ### Helper lemma for indexing into appended blocks -/

/-- Indexing past a prefix of known length lands in the suffix. -/
lemma getElem?_append_right_len {α : Type} {l1 l2 : List α} {n k : ℕ}
    (h : l1.length = n) : (l1 ++ l2)[n + k]? = l2[k]? := by
  subst h
  rw [List.getElem?_append_right (Nat.le_add_right _ _)]
  congr 1
  omega

/-- Indexing inside a prefix ignores the suffix. -/
lemma getElem?_append_left_len {α : Type} {l1 l2 : List α} {k : ℕ}
    (h : k < l1.length) : (l1 ++ l2)[k]? = l1[k]? := by
  rw [List.getElem?_append, if_pos h]

/-! ### C8: serializer -/

/-- C8: the VTK output consists of the four header lines, the POINTS
declaration, N point lines, the VERTICES declaration sized N and 2N, N
vertex lines of the form 1-index with 0-based indices, the POINT_DATA,
SCALARS and LOOKUP_TABLE lines, and N damage lines; all three per-point
blocks use the same lattice order; the filename is built from the truncated
Lx and the truncated phi*100 with a fixed suffix. -/
theorem serializer_correct (ps : List Particle) (dmg : List ℚ) (Lx phi : ℚ)
    (hlen : dmg.length = ps.length) (hLx : 0 ≤ Lx) (hphi : 0 ≤ phi) :
    (vtkLines ps dmg).length = 9 + 3 * ps.length ∧
    (vtkLines ps dmg)[0]? = some "# vtk DataFile Version 3.0" ∧
    (vtkLines ps dmg)[1]? = some "Peridynamic porous pre-damage" ∧
    (vtkLines ps dmg)[2]? = some "ASCII" ∧
    (vtkLines ps dmg)[3]? = some "DATASET POLYDATA" ∧
    (vtkLines ps dmg)[4]? = some ("POINTS " ++ toString ps.length ++ " float") ∧
    (vtkLines ps dmg)[5 + ps.length]? =
      some ("VERTICES " ++ toString ps.length ++ " " ++
        toString (2 * ps.length)) ∧
    (vtkLines ps dmg)[6 + 2 * ps.length]? =
      some ("POINT_DATA " ++ toString ps.length) ∧
    (vtkLines ps dmg)[7 + 2 * ps.length]? = some "SCALARS damage float 1" ∧
    (vtkLines ps dmg)[8 + 2 * ps.length]? = some "LOOKUP_TABLE default" ∧
    (∀ i : ℕ, i < ps.length →
      (vtkLines ps dmg)[5 + i]? = Option.map pointLine ps[i]? ∧
      (vtkLines ps dmg)[6 + ps.length + i]? = some (vertexLine i) ∧
      (vtkLines ps dmg)[9 + 2 * ps.length + i]? = Option.map fmt6 dmg[i]?) ∧
    vtkFilename Lx phi =
      "porosity_Lx" ++ toString ⌊Lx⌋ ++ "_phi" ++ toString ⌊phi * 100⌋ ++
        ".vtk" := by
  have hv : vtkLines ps dmg =
      ["# vtk DataFile Version 3.0", "Peridynamic porous pre-damage", "ASCII",
       "DATASET POLYDATA", "POINTS " ++ toString ps.length ++ " float"] ++
      (ps.map pointLine ++
        (["VERTICES " ++ toString ps.length ++ " " ++
            toString (2 * ps.length)] ++
          ((List.range ps.length).map vertexLine ++
            (["POINT_DATA " ++ toString ps.length, "SCALARS damage float 1",
              "LOOKUP_TABLE default"] ++ dmg.map fmt6)))) := by
    simp [vtkLines, List.append_assoc]
  rw [hv]
  have hP : (ps.map pointLine).length = ps.length := by simp
  have hV : ((List.range ps.length).map vertexLine).length = ps.length := by
    simp
  refine ⟨?_, rfl, rfl, rfl, rfl, ?_, ?_, ?_, ?_, ?_, ?_, ?_⟩
  · simp [List.length_append, hlen]
    omega
  · simp
  · have h1 : 5 + ps.length = 5 + (ps.length + 0) := by omega
    rw [h1]
    refine (getElem?_append_right_len rfl).trans
      ((getElem?_append_right_len hP).trans ?_)
    simp
  · have h1 : 6 + 2 * ps.length =
        5 + (ps.length + (1 + (ps.length + 0))) := by omega
    rw [h1]
    refine (getElem?_append_right_len rfl).trans
      ((getElem?_append_right_len hP).trans
        ((getElem?_append_right_len rfl).trans
          ((getElem?_append_right_len hV).trans ?_)))
    simp
  · have h1 : 7 + 2 * ps.length =
        5 + (ps.length + (1 + (ps.length + 1))) := by omega
    rw [h1]
    refine (getElem?_append_right_len rfl).trans
      ((getElem?_append_right_len hP).trans
        ((getElem?_append_right_len rfl).trans
          ((getElem?_append_right_len hV).trans ?_)))
    simp
  · have h1 : 8 + 2 * ps.length =
        5 + (ps.length + (1 + (ps.length + 2))) := by omega
    rw [h1]
    refine (getElem?_append_right_len rfl).trans
      ((getElem?_append_right_len hP).trans
        ((getElem?_append_right_len rfl).trans
          ((getElem?_append_right_len hV).trans ?_)))
    simp
  · intro i hi
    refine ⟨?_, ?_, ?_⟩
    · exact (getElem?_append_right_len rfl).trans
        ((getElem?_append_left_len (by simpa using hi)).trans
          (List.getElem?_map pointLine ps i))
    · have h1 : 6 + ps.length + i = 5 + (ps.length + (1 + i)) := by omega
      rw [h1]
      refine (getElem?_append_right_len rfl).trans
        ((getElem?_append_right_len hP).trans
          ((getElem?_append_right_len rfl).trans
            ((getElem?_append_left_len (by simpa using hi)).trans ?_)))
      rw [List.getElem?_map, List.getElem?_range hi]
      rfl
    · have h1 : 9 + 2 * ps.length + i =
          5 + (ps.length + (1 + (ps.length + (3 + i)))) := by omega
      rw [h1]
      exact (getElem?_append_right_len rfl).trans
        ((getElem?_append_right_len hP).trans
          ((getElem?_append_right_len rfl).trans
            ((getElem?_append_right_len hV).trans
              ((getElem?_append_right_len rfl).trans
                (List.getElem?_map fmt6 dmg i)))))
  · rw [vtkFilename]
    simp only [cppTrunc]
    rw [if_pos hLx, if_pos (by positivity : (0 : ℚ) ≤ phi * 100)]
/-- Witness for C8 on a one-particle lattice with one damage value. -/
theorem serializer_correct_witness :
    (vtkLines [⟨0, 0⟩] [0]).length = 9 + 3 * ([(⟨0, 0⟩ : Particle)].length) ∧
    (vtkLines [⟨0, 0⟩] [0])[6 + [(⟨0, 0⟩ : Particle)].length + 0]? =
      some (vertexLine 0) ∧
    vtkFilename 10 1 = "porosity_Lx" ++ toString ⌊(10 : ℚ)⌋ ++ "_phi" ++
      toString ⌊(1 : ℚ) * 100⌋ ++ ".vtk" := by
  obtain ⟨h1, _, _, _, _, _, _, _, _, _, hpt, hfn⟩ :=
    serializer_correct [⟨0, 0⟩] [0] 10 1 rfl (by decide) (by decide)
  exact ⟨h1, (hpt 0 (by decide)).2.1, hfn⟩
